import Mathlib

/-!
Shallow embedding of `rate_limiter.py`: the `Units` enumeration and the
`RateLimiter` class (construction, usage loading, limit updates, the cooldown
computation, the boundary check, the usage reset and the request wrapper),
together with a model of the `ConfigParser`-backed persistence the class uses.

Modelling conventions:
* Python strings are Lean `String`s; `ConfigParser` data is an ordered
  association list of sections, each an ordered association list of options
  (option keys arrive lowercased, as `ConfigParser` lowercases them, and are
  unique within a section, as `ConfigParser` rejects duplicates).
* `datetime` values are modelled at second precision: the module never writes
  sub-second data into a parsed config value that it later reads back as a
  count, and no claim depends on microseconds.
* Fallible Python code (`KeyError`, `NameError`, `TypeError`, `ValueError`,
  `AttributeError`, exceptions of the wrapped operation) is modelled with
  `Except` / `Option`.
* `timedelta` addition is addition of absolute seconds to the instant, and
  `(a - b).total_seconds()` is the difference of absolute epoch seconds.
-/

/-- The `Units` enumeration of `rate_limiter.py` (named `TimeUnit` here because
Mathlib already defines `Units`). -/
inductive TimeUnit where
  | YEAR
  | MONTH
  | DAY
  | HOUR
  | MINUTE
  | SECOND
deriving DecidableEq, Repr, Fintype

/-- The value of each `TimeUnit` element: its index in `datetime.timetuple()`. -/
def TimeUnit.value : TimeUnit → Nat
  | .YEAR => 0
  | .MONTH => 1
  | .DAY => 2
  | .HOUR => 3
  | .MINUTE => 4
  | .SECOND => 5

/-- `reversed(Units)`, the iteration order of `RateLimiter.__reset_usage`. -/
def unitsRev : List TimeUnit := [.SECOND, .MINUTE, .HOUR, .DAY, .MONTH, .YEAR]

/-- A `datetime.datetime` value, at second precision. -/
structure DateTime where
  year : Nat
  month : Nat
  day : Nat
  hour : Nat
  minute : Nat
  second : Nat
deriving DecidableEq, Repr

/-- The first six fields of `datetime.timetuple()`:
`(tm_year, tm_mon, tm_mday, tm_hour, tm_min, tm_sec)`. -/
def timetuple (t : DateTime) : List Nat :=
  [t.year, t.month, t.day, t.hour, t.minute, t.second]

/-- Component ranges a `datetime` value satisfies (day-in-month refined to the
common bound 31; `datetime` years run 1..9999). -/
def DateTime.Valid (t : DateTime) : Prop :=
  1 ≤ t.year ∧ t.year ≤ 9999 ∧ 1 ≤ t.month ∧ t.month ≤ 12 ∧
  1 ≤ t.day ∧ t.day ≤ 31 ∧ t.hour ≤ 23 ∧ t.minute ≤ 59 ∧ t.second ≤ 59

instance (t : DateTime) : Decidable t.Valid := by
  unfold DateTime.Valid; infer_instance

/-- Days since 0000-03-01 of a Gregorian civil date (the standard era-based
day-count algorithm); used to give each `datetime` an absolute second count. -/
def daysFromCivil (y m d : Nat) : Nat :=
  let y2 := if m ≤ 2 then y - 1 else y
  let era := y2 / 400
  let yoe := y2 % 400
  let mp := (m + 9) % 12
  let doy := (153 * mp + 2) / 5 + (d - 1)
  let doe := yoe * 365 + yoe / 4 - yoe / 100 + doy
  era * 146097 + doe

/-- Absolute second count of a `datetime` instant. -/
def epochSeconds (t : DateTime) : Nat :=
  86400 * daysFromCivil t.year t.month t.day
    + 3600 * t.hour + 60 * t.minute + t.second

/-- `str.isdigit` of a Python string: nonempty and every character a digit. -/
def isdigitStr (s : String) : Bool :=
  !s.data.isEmpty && s.data.all Char.isDigit

/-- The decimal digit character for `0..9`. -/
def digitChar : Nat → Char
  | 0 => '0'
  | 1 => '1'
  | 2 => '2'
  | 3 => '3'
  | 4 => '4'
  | 5 => '5'
  | 6 => '6'
  | 7 => '7'
  | 8 => '8'
  | 9 => '9'
  | _ => '*'

/-- The numeric value of a decimal digit character (10 for non-digits). -/
def digitVal : Char → Nat
  | '0' => 0
  | '1' => 1
  | '2' => 2
  | '3' => 3
  | '4' => 4
  | '5' => 5
  | '6' => 6
  | '7' => 7
  | '8' => 8
  | '9' => 9
  | _ => 10

/-- Value of a digit string, as `int(...)` computes it on an all-digit string. -/
def charsToNat (l : List Char) : Nat :=
  l.foldl (fun a c => a * 10 + digitVal c) 0

/-- Decimal digits of `n` without leading zeros (empty for 0); fuel-driven so
that the kernel can evaluate it (`fuel ≥ n` suffices). -/
def natToCharsGo : Nat → Nat → List Char
  | 0, _ => []
  | fuel + 1, n =>
      if n = 0 then [] else natToCharsGo fuel (n / 10) ++ [digitChar (n % 10)]

/-- `str(n)` for a non-negative Python int. -/
def natToChars (n : Nat) : List Char :=
  if n = 0 then [digitChar 0] else natToCharsGo n n

/-- `str(n)` as a Lean `String`. -/
def natToString (n : Nat) : String := String.mk (natToChars n)

/-- `int(s)`: digits (optionally with one leading minus sign) parse, anything
else raises `ValueError`.  (Python `int` also strips blanks and accepts a
leading plus; none of the repository's data uses those forms.) -/
def intParse (s : String) : Except String Int :=
  if isdigitStr s then .ok (charsToNat s.data)
  else
    match s.data with
    | '-' :: rest =>
        if rest ≠ [] ∧ rest.all Char.isDigit then .ok (-(charsToNat rest : Int))
        else .error "ValueError: invalid literal for int"
    | _ => .error "ValueError: invalid literal for int"

/-- `str(datetime)` at second precision: the zero-padded characters of
`"YYYY-MM-DD HH:MM:SS"`. -/
def timeToChars (t : DateTime) : List Char :=
  [digitChar (t.year / 1000 % 10), digitChar (t.year / 100 % 10),
   digitChar (t.year / 10 % 10), digitChar (t.year % 10), '-',
   digitChar (t.month / 10 % 10), digitChar (t.month % 10), '-',
   digitChar (t.day / 10 % 10), digitChar (t.day % 10), ' ',
   digitChar (t.hour / 10 % 10), digitChar (t.hour % 10), ':',
   digitChar (t.minute / 10 % 10), digitChar (t.minute % 10), ':',
   digitChar (t.second / 10 % 10), digitChar (t.second % 10)]

/-- `str(datetime)` as a Lean `String`. -/
def timeStr (t : DateTime) : String := String.mk (timeToChars t)

/-- `datetime.fromisoformat` on the fixed-width `"YYYY-MM-DD HH:MM:SS"` shape
produced by `str(datetime)`; anything else (or an out-of-range component)
raises `ValueError`, modelled as `none`.  (Python's range check on the day is
per-month; the common upper bound 31 is used here, which no claim reaches.) -/
def timeFromChars : List Char → Option DateTime
  | [y1, y2, y3, y4, c1, o1, o2, c2, d1, d2, c3, h1, h2, c4, i1, i2, c5, s1, s2] =>
    if c1 = '-' ∧ c2 = '-' ∧ c3 = ' ' ∧ c4 = ':' ∧ c5 = ':' ∧
       ([y1, y2, y3, y4, o1, o2, d1, d2, h1, h2, i1, i2, s1, s2].all Char.isDigit) = true then
      let y := ((digitVal y1 * 10 + digitVal y2) * 10 + digitVal y3) * 10 + digitVal y4
      let mo := digitVal o1 * 10 + digitVal o2
      let d := digitVal d1 * 10 + digitVal d2
      let h := digitVal h1 * 10 + digitVal h2
      let mi := digitVal i1 * 10 + digitVal i2
      let s := digitVal s1 * 10 + digitVal s2
      if 1 ≤ y ∧ 1 ≤ mo ∧ mo ≤ 12 ∧ 1 ≤ d ∧ d ≤ 31 ∧ h ≤ 23 ∧ mi ≤ 59 ∧ s ≤ 59 then
        some ⟨y, mo, d, h, mi, s⟩
      else none
    else none
  | _ => none

/-- `datetime.fromisoformat` on a Lean `String`. -/
def fromisoformat (s : String) : Option DateTime := timeFromChars s.data

/-- Association-list lookup (first match), the access pattern of Python dicts
and `ConfigParser` sections in this model. -/
def getKV {κ α : Type} [DecidableEq κ] : List (κ × α) → κ → Option α
  | [], _ => none
  | (k0, v0) :: rest, k => if k0 = k then some v0 else getKV rest k

/-- Python dict assignment `d[k] = v`: replace the value in place if the key
exists, append the pair otherwise. -/
def updKV {κ α : Type} [DecidableEq κ] : List (κ × α) → κ → α → List (κ × α)
  | [], k, v => [(k, v)]
  | (k0, v0) :: rest, k, v =>
      if k0 = k then (k, v) :: rest else (k0, v0) :: updKV rest k v

/-- The keys of an association list, in order. -/
def keyList {κ α : Type} (l : List (κ × α)) : List κ := l.map Prod.fst

/-- One `ConfigParser` section: ordered option/value pairs. -/
abbrev CfgSection := List (String × String)

/-- A parsed configuration file: ordered named sections. -/
abbrev ConfigFile := List (String × CfgSection)

/-- `RateLimiter.parse_unit`. -/
def parseUnit (s : String) : Option TimeUnit :=
  if s = "year" then some .YEAR
  else if s = "month" then some .MONTH
  else if s = "day" then some .DAY
  else if s = "hour" then some .HOUR
  else if s = "minute" then some .MINUTE
  else if s = "second" then some .SECOND
  else none

/-- The key under which `write_usage` stores a unit: `key.name` lowercased by
`ConfigParser`'s option transform (so exactly the canonical name that
`parse_unit` accepts). -/
def unitKey : TimeUnit → String
  | .YEAR => "year"
  | .MONTH => "month"
  | .DAY => "day"
  | .HOUR => "hour"
  | .MINUTE => "minute"
  | .SECOND => "second"

/-- The in-memory `RateLimiter` state: `self.config`, `self.usage` (a dict
from `Units` to counts, in insertion order) and `self.latest_time`. -/
structure LimiterState where
  config : ConfigFile
  usage : List (TimeUnit × Nat)
  latest : DateTime
deriving DecidableEq, Repr

/-- Decidable equality of `Except` results, for evaluating the model at
concrete inputs. -/
instance {ε α : Type} [DecidableEq ε] [DecidableEq α] : DecidableEq (Except ε α) := fun a b =>
  match a, b with
  | .error x, .error y =>
      if h : x = y then isTrue (by rw [h]) else isFalse (by intro hh; cases hh; exact h rfl)
  | .ok x, .ok y =>
      if h : x = y then isTrue (by rw [h]) else isFalse (by intro hh; cases hh; exact h rfl)
  | .error x, .ok y => isFalse (by intro hh; cases hh)
  | .ok x, .error y => isFalse (by intro hh; cases hh)

/-- `RateLimiter.__is_after`.  The Python loop `for i in range(unit.value)`
returns `False` as soon as a coarser component of the current time is `<` the
corresponding component of `latest_time`; its `else` block then compares the
component at index `i + 1` where `i` is the last loop variable, i.e. index
`unit.value` — the unit's own component.  For `unit = YEAR` the range is empty,
`i` is unbound, and the `else` block raises `NameError`. -/
def isAfter (latest now : DateTime) (u : TimeUnit) : Except String Bool :=
  let lt := timetuple latest
  let ct := timetuple now
  if u.value = 0 then .error "NameError: name i is not defined"
  else if (List.range u.value).any (fun i => decide (ct.getD i 0 < lt.getD i 0)) then .ok false
  else if ct.getD u.value 0 = lt.getD u.value 0 then .ok false
  else .ok true

/-- The loop body of `RateLimiter.__reset_usage`, iterating over the given
tail of `reversed(Units)`: skip units not in the usage dict, zero the rest,
and stop once the triggering unit has been zeroed. -/
def resetUsageGo (unit : TimeUnit) : List TimeUnit → List (TimeUnit × Nat) → List (TimeUnit × Nat)
  | [], usage => usage
  | v :: rest, usage =>
      if (getKV usage v).isSome then
        let usage2 := updKV usage v 0
        if v = unit then usage2 else resetUsageGo unit rest usage2
      else resetUsageGo unit rest usage

/-- `RateLimiter.__reset_usage`. -/
def resetUsage (usage : List (TimeUnit × Nat)) (unit : TimeUnit) : List (TimeUnit × Nat) :=
  resetUsageGo unit unitsRev usage

/-- `RateLimiter.__calculate_cooldown`.  The code rebuilds `next_increment`
from `datetime.min`'s components but then overwrites all six indices with
`latest_time.timetuple()`'s values, so the result keeps every calendar
component of `latest_time` (sub-second precision is dropped, which this model
does not carry). -/
def truncToSecond (t : DateTime) : DateTime :=
  let tt := timetuple t
  ⟨tt.getD 0 1, tt.getD 1 1, tt.getD 2 1, tt.getD 3 0, tt.getD 4 0, tt.getD 5 0⟩

/-- `RateLimiter.__calculate_cooldown` continued: `timedelta(years=1)` and
`timedelta(months=1)` raise `TypeError` (Python's `timedelta` has no such
keyword arguments); for the remaining units `timedelta` addition adds the
fixed number of absolute seconds and `total_seconds()` of the difference is
the difference of epoch seconds. -/
def calculateCooldown (latest : DateTime) (u : TimeUnit) : Except String Int :=
  let n0 := truncToSecond latest
  match u with
  | .YEAR => .error "TypeError: years is an invalid keyword argument"
  | .MONTH => .error "TypeError: months is an invalid keyword argument"
  | .DAY => .ok (((epochSeconds n0 : Int) + 86400) - (epochSeconds latest : Int))
  | .HOUR => .ok (((epochSeconds n0 : Int) + 3600) - (epochSeconds latest : Int))
  | .MINUTE => .ok (((epochSeconds n0 : Int) + 60) - (epochSeconds latest : Int))
  | .SECOND => .ok (((epochSeconds n0 : Int) + 1) - (epochSeconds latest : Int))

/-- The loop of `RateLimiter.cooldown` over the entries of the `LIMITS`
section, in order: skip unparseable unit names, and for the first parseable
unit whose usage count is `>=` its configured value return its calculated
cooldown.  `self.usage[u]` raises `KeyError` when the unit is untracked, and
`int(...)` raises `ValueError` on a non-integer limit value. -/
def cooldownGo (usage : List (TimeUnit × Nat)) (latest : DateTime) : CfgSection → Except String Int
  | [] => .ok 0
  | (k, v) :: rest =>
      match parseUnit k with
      | none => cooldownGo usage latest rest
      | some u =>
          match getKV usage u with
          | none => .error ("KeyError: " ++ k)
          | some c =>
              match intParse v with
              | .error e => .error e
              | .ok m => if m ≤ (c : Int) then calculateCooldown latest u
                         else cooldownGo usage latest rest

/-- `RateLimiter.cooldown` (returns `0.0`, here the integer 0, when no limit
is reached; accessing a missing `LIMITS` section raises `KeyError`). -/
def cooldown (st : LimiterState) : Except String Int :=
  match getKV st.config "LIMITS" with
  | some sec => cooldownGo st.usage st.latest sec
  | none => .error "KeyError: LIMITS"

/-- Python dict increment `self.usage[unit] += 1` (the unit is always present
when `request` performs it). -/
def incrKV (usage : List (TimeUnit × Nat)) (u : TimeUnit) : List (TimeUnit × Nat) :=
  updKV usage u ((getKV usage u).getD 0 + 1)

/-- The accounting loop of `RateLimiter.request` over the usage dict's keys:
for each tracked unit, reset if `__is_after` holds, then increment.  A
`NameError` escaping `__is_after` aborts the loop with the usage mutated so
far (the surrounding `try` catches it). -/
def requestLoop (latest now : DateTime) : List TimeUnit → List (TimeUnit × Nat) → List (TimeUnit × Nat) × Option String
  | [], usage => (usage, none)
  | k :: rest, usage =>
      match isAfter latest now k with
      | .error e => (usage, some e)
      | .ok b =>
          let usage1 := if b then resetUsage usage k else usage
          requestLoop latest now rest (incrKV usage1 k)

/-- `write_usage`: store `str(self.latest_time)` under `latest_time` and every
tracked unit's count under its canonical name in the `USAGE` section, then
write the whole configuration out; the returned `ConfigFile` is both the new
`self.config` and the file contents written. -/
def writeUsage (st : LimiterState) : ConfigFile :=
  let sec0 := (getKV st.config "USAGE").getD []
  let sec1 := updKV sec0 "latest_time" (timeStr st.latest)
  let sec2 := st.usage.foldl (fun s p => updKV s (unitKey p.1) (natToString p.2)) sec1
  updKV st.config "USAGE" sec2

/-- The outcome of `RateLimiter.request`: either the operation's result with
the updated limiter state, or a propagated exception (`Sum.inl` for the
wrapped operation's own failure, `Sum.inr` for a `NameError` from
`__is_after`) with the state as left behind and the flushed file contents. -/
inductive ReqOutcome (ε α : Type) where
  | success (res : α) (st : LimiterState)
  | failure (err : ε ⊕ String) (st : LimiterState) (flushed : ConfigFile)
deriving DecidableEq, Repr

/-- `RateLimiter.request`, with the wrapped call's outcome passed in as
`fres` and the wall-clock time of the accounting loop as `now`.  On success
the usage counters are updated and `latest_time` becomes `now`; on any
exception `write_usage` runs (mutating `self.config`) and the exception is
re-raised unchanged. -/
def request {ε α : Type} (fres : Except ε α) (now : DateTime) (st : LimiterState) : ReqOutcome ε α :=
  match fres with
  | .error e => .failure (.inl e) { st with config := writeUsage st } (writeUsage st)
  | .ok a =>
      match requestLoop st.latest now (keyList st.usage) st.usage with
      | (usage2, some err) =>
          let st2 : LimiterState := { st with usage := usage2 }
          .failure (.inr err) { st2 with config := writeUsage st2 } (writeUsage st2)
      | (usage2, none) => .success a { st with usage := usage2, latest := now }

/-- The state a successful `request` leaves behind, if it succeeds. -/
def reqSuccessState (fres : Except Unit Unit) (now : DateTime) (st : LimiterState) : Option LimiterState :=
  match request fres now st with
  | .success _ s => some s
  | .failure _ _ _ => none

/-- The limiter state any `request` outcome leaves behind. -/
def reqOutState {ε α : Type} : ReqOutcome ε α → LimiterState
  | .success _ s => s
  | .failure _ s _ => s

/-- The `USAGE`-loading loop of `RateLimiter.__init__`: keys that parse to a
unit and carry an all-digit value populate the usage dict; `latest_time` and
every other key are skipped (with a printed report, a no-op here). -/
def loadUsageGo : CfgSection → List (TimeUnit × Nat) → List (TimeUnit × Nat)
  | [], acc => acc
  | (k, v) :: rest, acc =>
      match parseUnit k with
      | some u =>
          if isdigitStr v then loadUsageGo rest (updKV acc u (charsToNat v.data))
          else loadUsageGo rest acc
      | none => loadUsageGo rest acc

/-- Usage loaded from a persisted `USAGE` section. -/
def loadUsage (sec : CfgSection) : List (TimeUnit × Nat) :=
  loadUsageGo sec []

/-- `RateLimiter.__init_usage`: a zero count for every key of the `LIMITS`
section; an unparseable key raises `Exception` and aborts construction. -/
def initUsageGo : List String → List (TimeUnit × Nat) → Except String (List (TimeUnit × Nat))
  | [], acc => .ok acc
  | k :: rest, acc =>
      match parseUnit k with
      | some u => initUsageGo rest (updKV acc u 0)
      | none => .error ("unknown time unit in LIMITS: " ++ k)

/-- `RateLimiter.__init__`.  `cfgFile = none` models the no-argument
constructor; `some cfg` models reading the named file into `cfg` (a missing
file reads as the empty configuration).  When the file has no `LIMITS`
section, `self.config['USAGE'] = dict()` replaces any persisted `USAGE`
section with an empty one before usage is loaded.  `now` is the value of
`datetime.now()`. -/
def initRL (cfgFile : Option ConfigFile) (now : DateTime) : Except String LimiterState :=
  match cfgFile with
  | none => .ok { config := [("LIMITS", []), ("USAGE", [])], usage := [], latest := now }
  | some cfg0 =>
      let cfg1 := if (getKV cfg0 "LIMITS").isNone then updKV cfg0 "USAGE" [] else cfg0
      match getKV cfg1 "USAGE" with
      | some sec =>
          match getKV sec "latest_time" with
          | some lt =>
              match fromisoformat lt with
              | some t => .ok { config := cfg1, usage := loadUsage sec, latest := t }
              | none => .error "ValueError: invalid isoformat string"
          | none => .ok { config := cfg1, usage := loadUsage sec, latest := now }
      | none =>
          match initUsageGo (keyList ((getKV cfg1 "LIMITS").getD [])) [] with
          | .ok usage => .ok { config := updKV cfg1 "USAGE" [], usage := usage, latest := now }
          | .error e => .error e

/-- A Python value passed as a keyword argument to `update_limits`: an actual
integer, the type object `int` itself, or anything else. -/
inductive PyVal where
  | vint (n : Int)
  | vtypeInt
  | vother
deriving DecidableEq, Repr

/-- The Python expression `value is int`: identity with the type object. -/
def pyIsTypeInt : PyVal → Bool
  | .vtypeInt => true
  | _ => false

/-- The loop of `RateLimiter.update_limits` over its keyword arguments: an
entry is acted on only when its key parses as a unit AND `value is int` holds
(identity with the type object `int`, not an integer-type test) — and in that
case `key.name` on the `str` key raises `AttributeError`; every other entry
is silently skipped. -/
def updateLimitsGo : List (String × PyVal) → Except String Unit
  | [] => .ok ()
  | (k, v) :: rest =>
      if (parseUnit k).isSome && pyIsTypeInt v then
        .error "AttributeError: str object has no attribute name"
      else updateLimitsGo rest

/-- `RateLimiter.update_limits`: after the loop (which in the non-raising case
never modifies `self.config`), the configuration is written to the file; the
returned pair is the (unchanged) state and the file contents written. -/
def updateLimits (kwargs : List (String × PyVal)) (st : LimiterState) : Except String (LimiterState × ConfigFile) :=
  match updateLimitsGo kwargs with
  | .ok _ => .ok (st, st.config)
  | .error e => .error e

/-- The invariant claimed by the spec: a unit is tracked in the usage dict
precisely when some `LIMITS` entry names it. -/
def TrackedIffLimited (st : LimiterState) : Prop :=
  ∀ u : TimeUnit,
    (getKV st.usage u).isSome ↔
      ∃ kv ∈ (getKV st.config "LIMITS").getD [], parseUnit kv.1 = some u

/-- Modelled from the spec: the cooldown §4.4 prescribes for `unit = DAY` —
truncate `lastOperationTime` to the start of its day (keep year/month/day,
zero hour/minute/second), add one day, and return the seconds from
`lastOperationTime` to that boundary. -/
def specCooldownDay (t : DateTime) : Int :=
  ((epochSeconds ⟨t.year, t.month, t.day, 0, 0, 0⟩ : Int) + 86400) - (epochSeconds t : Int)

/-- Modelled from the spec: the boundary-crossed check §4.4 describes —
all components coarser than the unit equal, and the component immediately
finer than the unit different. -/
def specIsAfter (latest now : DateTime) (u : TimeUnit) : Bool :=
  ((List.range u.value).all fun i =>
      decide ((timetuple now).getD i 0 = (timetuple latest).getD i 0)) &&
    decide ((timetuple now).getD (u.value + 1) 0 ≠ (timetuple latest).getD (u.value + 1) 0)

/-- The prefix of a list up to and including the first occurrence of `u`
(the part of `reversed(Units)` that `__reset_usage` visits). -/
def takeThrough (u : TimeUnit) : List TimeUnit → List TimeUnit
  | [] => []
  | v :: rest => if v = u then [v] else v :: takeThrough u rest

/-- A limiter with a daily limit of 1 already reached, last operation at
2020-01-01 01:00:00. -/
def stC1 : LimiterState :=
  { config := [("LIMITS", [("day", "1")]), ("USAGE", [])],
    usage := [(.DAY, 1)], latest := ⟨2020, 1, 1, 1, 0, 0⟩ }

/-- A limiter with a per-minute limit of 2 already reached. -/
def stC1w : LimiterState :=
  { config := [("LIMITS", [("minute", "2")]), ("USAGE", [])],
    usage := [(.MINUTE, 2)], latest := ⟨2020, 1, 1, 0, 0, 0⟩ }

/-- A limiter tracking only DAY with 5 prior uses, last operation
2020-01-15 10:00:00. -/
def stC2 : LimiterState :=
  { config := [("LIMITS", [("day", "5")]), ("USAGE", [])],
    usage := [(.DAY, 5)], latest := ⟨2020, 1, 15, 10, 0, 0⟩ }

/-- A wall-clock time a full month after `stC2.latest`, same day-of-month
component, earlier hour. -/
def nowC2 : DateTime := ⟨2020, 2, 15, 9, 0, 0⟩

/-- A limiter tracking DAY, HOUR and MINUTE (coarse to fine). -/
def stC2w : LimiterState :=
  { config := [("LIMITS", [("day", "9"), ("hour", "9"), ("minute", "9")]), ("USAGE", [])],
    usage := [(.DAY, 5), (.HOUR, 2), (.MINUTE, 1)], latest := ⟨2020, 1, 1, 10, 0, 30⟩ }

/-- One hour after `stC2w.latest`. -/
def nowC2w : DateTime := ⟨2020, 1, 1, 11, 0, 30⟩

/-- 2020-01-01 00:00:00. -/
def ltC5 : DateTime := ⟨2020, 1, 1, 0, 0, 0⟩

/-- 2020-01-01 05:00:00: same day as `ltC5`, five hours later. -/
def nwC5 : DateTime := ⟨2020, 1, 1, 5, 0, 0⟩

/-- A persisted configuration declaring a daily limit of 1 and no usage. -/
def cfgC6 : ConfigFile := [("LIMITS", [("day", "1")])]

/-- 2020-03-01 12:00:00, the fixed wall-clock time of the C6 trace. -/
def tC6 : DateTime := ⟨2020, 3, 1, 12, 0, 0⟩

/-- The limiter constructed from `cfgC6`. -/
def stC6 : LimiterState :=
  { config := [("LIMITS", [("day", "1")]), ("USAGE", [])],
    usage := [(.DAY, 0)], latest := tC6 }

/-- `stC6` after one successful request at `tC6`. -/
def stC6b : LimiterState := { stC6 with usage := [(.DAY, 1)] }

/-- `stC6b` after another successful request at `tC6`. -/
def stC6c : LimiterState := { stC6 with usage := [(.DAY, 2)] }

/-- A limiter with a yearly limit of 1 already reached. -/
def stC7 : LimiterState :=
  { config := [("LIMITS", [("year", "1")]), ("USAGE", [])],
    usage := [(.YEAR, 1)], latest := ⟨2020, 6, 1, 12, 0, 0⟩ }

/-- A limiter tracking DAY with 3 uses, about to be flushed and reloaded. -/
def stC8w : LimiterState :=
  { config := [("LIMITS", [("day", "5")]), ("USAGE", [])],
    usage := [(.DAY, 3)], latest := ⟨2020, 1, 2, 3, 4, 5⟩ }

/-- A persisted configuration with a `LIMITS` entry for `day` and a `USAGE`
section holding only `latest_time`. -/
def cfgC9 : ConfigFile :=
  [("LIMITS", [("day", "5")]), ("USAGE", [("latest_time", "2020-01-01 00:00:00")])]

/-- The limiter constructed from `cfgC9`: nothing is tracked. -/
def stC9 : LimiterState :=
  { config := cfgC9, usage := [], latest := ⟨2020, 1, 1, 0, 0, 0⟩ }

/-- A persisted configuration with usage data but no `LIMITS` section. -/
def cfgC10 : ConfigFile :=
  [("USAGE", [("day", "7"), ("latest_time", "2020-05-05 01:02:03")])]

/-- The seconds `__calculate_cooldown` adds for each unit handled by
`timedelta`: one day, hour, minute or second (0 for the units whose
`timedelta` call raises `TypeError`). -/
def spanSeconds : TimeUnit → Int
  | .YEAR => 0
  | .MONTH => 0
  | .DAY => 86400
  | .HOUR => 3600
  | .MINUTE => 60
  | .SECOND => 1

theorem getKV_updKV_self {κ α : Type} [DecidableEq κ] (l : List (κ × α)) (k : κ) (v : α) :
    getKV (updKV l k v) k = some v := by
  induction l with
  | nil => simp [updKV, getKV]
  | cons p rest ih =>
      obtain ⟨k0, v0⟩ := p
      by_cases h : k0 = k
      · simp [updKV, h, getKV]
      · simp [updKV, h, getKV, ih]

theorem getKV_updKV_ne {κ α : Type} [DecidableEq κ] (l : List (κ × α)) (k k2 : κ) (v : α)
    (h : k2 ≠ k) : getKV (updKV l k v) k2 = getKV l k2 := by
  have h2 : ¬k = k2 := fun e => h e.symm
  induction l with
  | nil => simp [updKV, getKV, h2]
  | cons p rest ih =>
      obtain ⟨k0, v0⟩ := p
      by_cases hk : k0 = k
      · subst hk
        simp [updKV, getKV, h2]
      · simp [updKV, hk, getKV, ih]

theorem keyList_cons {κ α : Type} (p : κ × α) (l : List (κ × α)) :
    keyList (p :: l) = p.1 :: keyList l := rfl

theorem mem_keyList_iff_getKV {κ α : Type} [DecidableEq κ] (l : List (κ × α)) (k : κ) :
    k ∈ keyList l ↔ (getKV l k).isSome := by
  induction l with
  | nil => simp [keyList, getKV]
  | cons p rest ih =>
      obtain ⟨k0, v0⟩ := p
      by_cases h : k0 = k
      · subst h
        simp [keyList_cons, getKV]
      · have h2 : ¬k = k0 := fun e => h e.symm
        rw [keyList_cons, List.mem_cons]
        simp only [getKV, if_neg h]
        simp [h2, ih]

theorem keyList_updKV_mem {κ α : Type} [DecidableEq κ] (l : List (κ × α)) (k : κ) (v : α)
    (h : k ∈ keyList l) : keyList (updKV l k v) = keyList l := by
  induction l with
  | nil => simp [keyList] at h
  | cons p rest ih =>
      obtain ⟨k0, v0⟩ := p
      by_cases hk : k0 = k
      · simp [updKV, hk, keyList_cons]
      · have h2 : ¬k = k0 := fun e => hk e.symm
        rw [keyList_cons, List.mem_cons] at h
        rcases h with h | h
        · exact absurd h h2
        · simp [updKV, hk, keyList_cons, ih h]

theorem digitVal_digitChar (k : Nat) (h : k < 10) : digitVal (digitChar k) = k := by
  interval_cases k <;> rfl

theorem isDigit_digitChar (k : Nat) (h : k < 10) : (digitChar k).isDigit = true := by
  interval_cases k <;> decide

theorem charsToNat_snoc (l : List Char) (c : Char) :
    charsToNat (l ++ [c]) = charsToNat l * 10 + digitVal c := by
  simp [charsToNat, List.foldl_append]

theorem charsToNat_natToCharsGo : ∀ fuel n : Nat, n ≤ fuel →
    charsToNat (natToCharsGo fuel n) = n := by
  intro fuel
  induction fuel with
  | zero =>
      intro n h
      have : n = 0 := Nat.le_zero.mp h
      simp [this, natToCharsGo, charsToNat]
  | succ f ih =>
      intro n h
      by_cases h0 : n = 0
      · simp [h0, natToCharsGo, charsToNat]
      · have hdiv : n / 10 ≤ f := by
          have : n / 10 < n := Nat.div_lt_self (Nat.pos_of_ne_zero h0) (by omega)
          omega
        rw [natToCharsGo, if_neg h0, charsToNat_snoc, ih _ hdiv,
          digitVal_digitChar _ (Nat.mod_lt _ (by omega))]
        omega

theorem natToCharsGo_digits : ∀ fuel n : Nat,
    (natToCharsGo fuel n).all Char.isDigit = true := by
  intro fuel
  induction fuel with
  | zero => intro n; simp [natToCharsGo]
  | succ f ih =>
      intro n
      by_cases h0 : n = 0
      · simp [h0, natToCharsGo]
      · rw [natToCharsGo, if_neg h0]
        simp [List.all_append, ih, isDigit_digitChar _ (Nat.mod_lt _ (by omega))]

theorem natToCharsGo_ne_nil (fuel n : Nat) (h0 : n ≠ 0) (h : n ≤ fuel) :
    natToCharsGo fuel n ≠ [] := by
  match fuel with
  | 0 => omega
  | f + 1 =>
      rw [natToCharsGo, if_neg h0]
      simp

theorem charsToNat_natToChars (n : Nat) : charsToNat (natToChars n) = n := by
  by_cases h0 : n = 0
  · simp [h0, natToChars, charsToNat, digitChar, digitVal]
  · rw [natToChars, if_neg h0]
    exact charsToNat_natToCharsGo n n (Nat.le_refl n)

theorem isdigit_natToString (n : Nat) : isdigitStr (natToString n) = true := by
  by_cases h0 : n = 0
  · simp [h0, natToString, natToChars, isdigitStr]
    decide
  · rw [natToString, natToChars, if_neg h0]
    simp [isdigitStr, natToCharsGo_digits]
    exact natToCharsGo_ne_nil n n h0 (Nat.le_refl n)

theorem two_digit_val (n : Nat) (h : n < 100) :
    digitVal (digitChar (n / 10 % 10)) * 10 + digitVal (digitChar (n % 10)) = n := by
  rw [digitVal_digitChar _ (Nat.mod_lt _ (by omega)),
    digitVal_digitChar _ (Nat.mod_lt _ (by omega))]
  omega

theorem four_digit_val (n : Nat) (h : n < 10000) :
    ((digitVal (digitChar (n / 1000 % 10)) * 10 + digitVal (digitChar (n / 100 % 10))) * 10
        + digitVal (digitChar (n / 10 % 10))) * 10 + digitVal (digitChar (n % 10)) = n := by
  rw [digitVal_digitChar _ (Nat.mod_lt _ (by omega)),
    digitVal_digitChar _ (Nat.mod_lt _ (by omega)),
    digitVal_digitChar _ (Nat.mod_lt _ (by omega)),
    digitVal_digitChar _ (Nat.mod_lt _ (by omega))]
  omega

theorem fromisoformat_timeStr (t : DateTime) (h : t.Valid) :
    fromisoformat (timeStr t) = some t := by
  obtain ⟨h1, h2, h3, h4, h5, h6, h7, h8, h9⟩ := h
  obtain ⟨y, mo, d, hh, mi, s⟩ := t
  simp only at h1 h2 h3 h4 h5 h6 h7 h8 h9
  show timeFromChars (timeToChars ⟨y, mo, d, hh, mi, s⟩) = some ⟨y, mo, d, hh, mi, s⟩
  rw [timeToChars]
  simp only [timeFromChars]
  rw [if_pos, if_pos]
  · rw [four_digit_val y (by omega), two_digit_val mo (by omega), two_digit_val d (by omega),
      two_digit_val hh (by omega), two_digit_val mi (by omega), two_digit_val s (by omega)]
  · rw [four_digit_val y (by omega), two_digit_val mo (by omega), two_digit_val d (by omega),
      two_digit_val hh (by omega), two_digit_val mi (by omega), two_digit_val s (by omega)]
    refine ⟨by omega, by omega, by omega, by omega, by omega, by omega, by omega, by omega⟩
  · refine ⟨trivial, trivial, trivial, trivial, trivial, ?_⟩
    simp [List.all, isDigit_digitChar _ (Nat.mod_lt _ (by omega))]

theorem parseUnit_unitKey (u : TimeUnit) : parseUnit (unitKey u) = some u := by
  cases u <;> rfl

theorem parseUnit_eq_some (s : String) (u : TimeUnit) (h : parseUnit s = some u) :
    s = unitKey u := by
  unfold parseUnit at h
  split at h
  · cases h; assumption
  · split at h
    · cases h; assumption
    · split at h
      · cases h; assumption
      · split at h
        · cases h; assumption
        · split at h
          · cases h; assumption
          · split at h
            · cases h; assumption
            · cases h

theorem unitKey_ne_latest (u : TimeUnit) : unitKey u ≠ "latest_time" := by
  cases u <;> decide

theorem getKV_incrKV_self (usage : List (TimeUnit × Nat)) (u : TimeUnit) :
    getKV (incrKV usage u) u = some ((getKV usage u).getD 0 + 1) :=
  getKV_updKV_self usage u _

theorem getKV_incrKV_ne (usage : List (TimeUnit × Nat)) (u k : TimeUnit) (h : k ≠ u) :
    getKV (incrKV usage u) k = getKV usage k :=
  getKV_updKV_ne usage u k _ h

theorem keyList_incrKV (usage : List (TimeUnit × Nat)) (u : TimeUnit)
    (h : u ∈ keyList usage) : keyList (incrKV usage u) = keyList usage :=
  keyList_updKV_mem usage u _ h

theorem mem_takeThrough_unitsRev (u k : TimeUnit) :
    k ∈ takeThrough u unitsRev ↔ u.value ≤ k.value := by
  cases u <;> cases k <;> decide

theorem mem_unitsRev (u : TimeUnit) : u ∈ unitsRev := by
  cases u <;> decide

theorem getKV_resetUsageGo (unit : TimeUnit) :
    ∀ (L : List TimeUnit) (usage : List (TimeUnit × Nat)),
      unit ∈ L → (getKV usage unit).isSome →
      ∀ k, getKV (resetUsageGo unit L usage) k =
        if k ∈ takeThrough unit L ∧ (getKV usage k).isSome then some 0 else getKV usage k := by
  intro L
  induction L with
  | nil => intro usage hm; simp at hm
  | cons v rest ih =>
      intro usage hm hs k
      by_cases hv : (getKV usage v).isSome
      · by_cases hvu : v = unit
        · subst hvu
          rw [resetUsageGo, if_pos hv, if_pos rfl]
          rw [takeThrough, if_pos rfl]
          by_cases hk : k = v
          · subst hk
            simp [getKV_updKV_self, hv]
          · rw [getKV_updKV_ne _ _ _ _ hk]
            simp [hk]
        · have hm2 : unit ∈ rest := by
            rcases List.mem_cons.mp hm with h | h
            · exact absurd h.symm hvu
            · exact h
          rw [resetUsageGo, if_pos hv, if_neg hvu]
          have hs2 : (getKV (updKV usage v 0) unit).isSome := by
            rw [getKV_updKV_ne _ _ _ _ (fun e => hvu e.symm)]
            exact hs
          rw [ih (updKV usage v 0) hm2 hs2 k]
          rw [takeThrough, if_neg hvu]
          by_cases hk : k = v
          · subst hk
            rw [getKV_updKV_self]
            by_cases hkr : k ∈ takeThrough unit rest
            · simp [hkr, hv, getKV_updKV_self]
            · simp [hkr, hv, getKV_updKV_self]
          · rw [getKV_updKV_ne _ _ _ _ hk]
            simp [hk]
      · have hvu : v ≠ unit := by
          intro e
          rw [e] at hv
          exact hv hs
        have hm2 : unit ∈ rest := by
          rcases List.mem_cons.mp hm with h | h
          · exact absurd h.symm hvu
          · exact h
        rw [resetUsageGo, if_neg hv]
        rw [ih usage hm2 hs k]
        rw [takeThrough, if_neg hvu]
        by_cases hk : k = v
        · subst hk
          simp only [Option.isSome] at hv
          have hnone : getKV usage k = none := by
            cases h : getKV usage k
            · rfl
            · rw [h] at hv; simp at hv
          simp [hnone]
        · simp [hk]

theorem getKV_resetUsage (usage : List (TimeUnit × Nat)) (unit : TimeUnit)
    (h : (getKV usage unit).isSome) (k : TimeUnit) :
    getKV (resetUsage usage unit) k =
      if unit.value ≤ k.value ∧ (getKV usage k).isSome then some 0 else getKV usage k := by
  rw [resetUsage, getKV_resetUsageGo unit unitsRev usage (mem_unitsRev unit) h k]
  simp only [mem_takeThrough_unitsRev]

theorem keyList_resetUsageGo (unit : TimeUnit) :
    ∀ (L : List TimeUnit) (usage : List (TimeUnit × Nat)),
      keyList (resetUsageGo unit L usage) = keyList usage := by
  intro L
  induction L with
  | nil => intro usage; rfl
  | cons v rest ih =>
      intro usage
      by_cases hv : (getKV usage v).isSome
      · have hmem : v ∈ keyList usage := (mem_keyList_iff_getKV usage v).mpr hv
        by_cases hvu : v = unit
        · rw [resetUsageGo, if_pos hv, if_pos hvu, keyList_updKV_mem _ _ _ hmem]
        · rw [resetUsageGo, if_pos hv, if_neg hvu, ih, keyList_updKV_mem _ _ _ hmem]
      · rw [resetUsageGo, if_neg hv, ih]

theorem keyList_resetUsage (usage : List (TimeUnit × Nat)) (unit : TimeUnit) :
    keyList (resetUsage usage unit) = keyList usage :=
  keyList_resetUsageGo unit unitsRev usage

theorem value_eq_zero_iff (u : TimeUnit) : u.value = 0 ↔ u = .YEAR := by
  cases u <;> simp [TimeUnit.value]

theorem isAfter_ok_of_value_pos (latest now : DateTime) (u : TimeUnit)
    (h : u.value ≠ 0) : ∃ b, isAfter latest now u = .ok b := by
  simp only [isAfter]
  rw [if_neg h]
  split
  · exact ⟨false, rfl⟩
  · split
    · exact ⟨false, rfl⟩
    · exact ⟨true, rfl⟩

theorem keyList_requestLoop (latest now : DateTime) :
    ∀ (keys : List TimeUnit) (usage : List (TimeUnit × Nat)),
      (∀ k ∈ keys, k ∈ keyList usage) →
      keyList (requestLoop latest now keys usage).1 = keyList usage := by
  intro keys
  induction keys with
  | nil => intro usage hk; rfl
  | cons k rest ih =>
      intro usage hk
      rw [requestLoop]
      cases h : isAfter latest now k with
      | error e => rfl
      | ok b =>
          have hkm : k ∈ keyList usage := hk k (by simp)
          have hkeys1 : keyList (if b then resetUsage usage k else usage) = keyList usage := by
            cases b <;> simp [keyList_resetUsage]
          have hkm1 : k ∈ keyList (if b then resetUsage usage k else usage) := by
            rw [hkeys1]; exact hkm
          have hkeys2 : keyList (incrKV (if b then resetUsage usage k else usage) k) = keyList usage := by
            rw [keyList_incrKV _ _ hkm1, hkeys1]
          rw [ih _ (by intro j hj; rw [hkeys2]; exact hk j (by simp [hj]))]
          exact hkeys2

theorem requestLoop_all_false (latest now : DateTime) :
    ∀ (keys : List TimeUnit) (usage : List (TimeUnit × Nat)),
      keys.Nodup → (∀ k ∈ keys, isAfter latest now k = .ok false) →
      (requestLoop latest now keys usage).2 = none ∧
      ∀ j, getKV (requestLoop latest now keys usage).1 j =
        if j ∈ keys then some ((getKV usage j).getD 0 + 1) else getKV usage j := by
  intro keys
  induction keys with
  | nil =>
      intro usage hnd hf
      exact ⟨rfl, fun j => by simp [requestLoop]⟩
  | cons k rest ih =>
      intro usage hnd hf
      have hk : isAfter latest now k = .ok false := hf k (by simp)
      have hred : requestLoop latest now (k :: rest) usage
          = requestLoop latest now rest (incrKV usage k) := by
        rw [requestLoop, hk]
        rfl
      have hnd2 := (List.nodup_cons.mp hnd).2
      have hknr := (List.nodup_cons.mp hnd).1
      obtain ⟨ih1, ih2⟩ := ih (incrKV usage k) hnd2 (fun j hj => hf j (by simp [hj]))
      rw [hred]
      refine ⟨ih1, ?_⟩
      intro j
      rw [ih2 j]
      by_cases hjr : j ∈ rest
      · have hjk : j ≠ k := fun e => hknr (e ▸ hjr)
        rw [if_pos hjr, if_pos (by simp [hjr]), getKV_incrKV_ne usage k j hjk]
      · rw [if_neg hjr]
        by_cases hjk : j = k
        · subst hjk
          rw [getKV_incrKV_self, if_pos (by simp)]
        · rw [getKV_incrKV_ne usage k j hjk, if_neg (by simp [hjk, hjr])]

theorem requestLoop_ones (latest now : DateTime) :
    ∀ (post : List TimeUnit) (usage : List (TimeUnit × Nat)) (b0 : Nat),
      1 ≤ b0 →
      List.Pairwise (fun a b : TimeUnit => a.value < b.value) post →
      (∀ k ∈ post, b0 ≤ k.value ∧ k ∈ keyList usage ∧ getKV usage k = some 0) →
      (∀ j, j ∈ keyList usage → b0 ≤ j.value → j ∉ post → getKV usage j = some 0) →
      (requestLoop latest now post usage).2 = none ∧
      ∀ j, getKV (requestLoop latest now post usage).1 j =
        if j ∈ post then some 1 else getKV usage j := by
  intro post
  induction post with
  | nil =>
      intro usage b0 hb hp hpost h0
      exact ⟨rfl, fun j => by simp [requestLoop]⟩
  | cons k rest ih =>
      intro usage b0 hb hp hpost h0
      obtain ⟨hkv, hktr, hk0⟩ := hpost k (by simp)
      have hkvz : k.value ≠ 0 := by omega
      obtain ⟨b, hbq⟩ := isAfter_ok_of_value_pos latest now k hkvz
      have hkn : k ∉ rest := by
        intro hmem
        have := (List.pairwise_cons.mp hp).1 k hmem
        omega
      have hks : (getKV usage k).isSome := by rw [hk0]; rfl
      have husage1 : ∀ j, getKV (if b = true then resetUsage usage k else usage) j =
          if b = true ∧ k.value ≤ j.value ∧ (getKV usage j).isSome then some 0
          else getKV usage j := by
        intro j
        cases b with
        | false => simp
        | true =>
            rw [if_pos rfl, getKV_resetUsage usage k hks j]
            by_cases hc : k.value ≤ j.value ∧ (getKV usage j).isSome
            · rw [if_pos hc, if_pos ⟨rfl, hc⟩]
            · rw [if_neg hc, if_neg (fun h => hc h.2)]
      have hu1k : getKV (if b = true then resetUsage usage k else usage) k = some 0 := by
        rw [husage1 k]
        cases b with
        | false => simpa using hk0
        | true => rw [if_pos ⟨rfl, Nat.le_refl _, hks⟩]
      have hkeys1 : keyList (if b = true then resetUsage usage k else usage) = keyList usage := by
        cases b <;> simp [keyList_resetUsage]
      have hu2k : getKV (incrKV (if b = true then resetUsage usage k else usage) k) k = some 1 := by
        rw [getKV_incrKV_self, hu1k]
        rfl
      have hu2 : ∀ j, j ≠ k → getKV (incrKV (if b = true then resetUsage usage k else usage) k) j =
          if b = true ∧ k.value ≤ j.value ∧ (getKV usage j).isSome then some 0
          else getKV usage j := by
        intro j hj
        rw [getKV_incrKV_ne _ _ _ hj, husage1 j]
      have hkeys2 : keyList (incrKV (if b = true then resetUsage usage k else usage) k) = keyList usage := by
        rw [keyList_incrKV _ _ (by rw [hkeys1]; exact hktr), hkeys1]
      have hred : requestLoop latest now (k :: rest) usage
          = requestLoop latest now rest (incrKV (if b = true then resetUsage usage k else usage) k) := by
        rw [requestLoop, hbq]
      obtain ⟨ih1, ih2⟩ := ih (incrKV (if b = true then resetUsage usage k else usage) k) (k.value + 1)
        (by omega) (List.pairwise_cons.mp hp).2
        (by
          intro r hr
          have hrk : r ≠ k := fun e => hkn (e ▸ hr)
          obtain ⟨hrv, hrtr, hr0⟩ := hpost r (by simp [hr])
          have hrv2 : k.value < r.value := (List.pairwise_cons.mp hp).1 r hr
          refine ⟨by omega, by rw [hkeys2]; exact hrtr, ?_⟩
          rw [hu2 r hrk]
          cases b with
          | false => simpa using hr0
          | true => rw [if_pos ⟨rfl, by omega, by rw [hr0]; rfl⟩])
        (by
          intro j hjtr hjv hjr
          have hjk : j ≠ k := by
            intro e
            subst e
            omega
          have hjpost : j ∉ k :: rest := by simp [hjk, hjr]
          have hjold : getKV usage j = some 0 :=
            h0 j (by rw [hkeys2] at hjtr; exact hjtr) (by omega) hjpost
          rw [hu2 j hjk]
          cases b with
          | false => simpa using hjold
          | true => rw [if_pos ⟨rfl, by omega, by rw [hjold]; rfl⟩])
      rw [hred]
      refine ⟨ih1, ?_⟩
      intro j
      rw [ih2 j]
      by_cases hjr : j ∈ rest
      · rw [if_pos hjr, if_pos (by simp [hjr])]
      · rw [if_neg hjr]
        by_cases hjk : j = k
        · subst hjk
          rw [hu2k, if_pos (by simp)]
        · have hmem : j ∉ k :: rest := by simp [hjk, hjr]
          rw [hu2 j hjk, if_neg hmem]
          cases b with
          | false => simp
          | true =>
              by_cases hc : k.value ≤ j.value ∧ (getKV usage j).isSome = true
              · have hjtr : j ∈ keyList usage := (mem_keyList_iff_getKV usage j).mpr hc.2
                have hz : getKV usage j = some 0 :=
                  h0 j hjtr (by omega) hmem
                rw [if_pos ⟨rfl, hc⟩, hz]
              · rw [if_neg (fun h => hc h.2)]

theorem requestLoop_append (latest now : DateTime) :
    ∀ (keys1 keys2 : List TimeUnit) (usage : List (TimeUnit × Nat)),
      (requestLoop latest now keys1 usage).2 = none →
      requestLoop latest now (keys1 ++ keys2) usage =
        requestLoop latest now keys2 (requestLoop latest now keys1 usage).1 := by
  intro keys1
  induction keys1 with
  | nil => intro keys2 usage h; rfl
  | cons k rest ih =>
      intro keys2 usage h
      cases hq : isAfter latest now k with
      | error e =>
          rw [requestLoop, hq] at h
          simp at h
      | ok b =>
          have e1 : requestLoop latest now ((k :: rest) ++ keys2) usage
              = requestLoop latest now (rest ++ keys2)
                  (incrKV (if b = true then resetUsage usage k else usage) k) := by
            rw [List.cons_append, requestLoop, hq]
          have e2 : requestLoop latest now (k :: rest) usage
              = requestLoop latest now rest
                  (incrKV (if b = true then resetUsage usage k else usage) k) := by
            rw [requestLoop, hq]
          rw [e2] at h
          rw [e1, e2, ih keys2 _ h]

/-- C4: when the wrapped operation fails, `request` leaves every usage counter
and `lastOperationTime` exactly as they were, writes the current usage state
to the configuration file (`write_usage`) before propagating, and re-raises
the operation's failure unchanged (`Sum.inl e` carries the original
exception). -/
theorem request_failure_preserves_state {ε α : Type} (e : ε) (now : DateTime) (st : LimiterState) :
    request (Except.error e : Except ε α) now st =
      .failure (.inl e) { st with config := writeUsage st } (writeUsage st) ∧
    ({ st with config := writeUsage st } : LimiterState).usage = st.usage ∧
    ({ st with config := writeUsage st } : LimiterState).latest = st.latest :=
  ⟨rfl, rfl, rfl⟩

/-- C5 (corrected): for every unit other than `YEAR`, `__is_after` returns
`True` iff no component strictly coarser than the unit decreased (current `>=`
latest componentwise, not equality as the spec claims) and the unit's OWN
component (not the one immediately finer) differs; for `YEAR` it raises
`NameError` instead of returning. -/
theorem isAfter_semantics (latest now : DateTime) (u : TimeUnit) :
    (u = .YEAR → isAfter latest now u = .error "NameError: name i is not defined") ∧
    (u ≠ .YEAR →
      (isAfter latest now u = .ok true ↔
        (∀ i, i < u.value → (timetuple latest).getD i 0 ≤ (timetuple now).getD i 0) ∧
        (timetuple now).getD u.value 0 ≠ (timetuple latest).getD u.value 0)) := by
  constructor
  · intro h
    subst h
    rfl
  · intro h
    have hv : u.value ≠ 0 := fun e => h ((value_eq_zero_iff u).mp e)
    simp only [isAfter]
    rw [if_neg hv]
    split_ifs with h1 h2
    · simp only [List.any_eq_true, List.mem_range, decide_eq_true_eq] at h1
      obtain ⟨i, hi, hlt⟩ := h1
      constructor
      · intro habs
        exact absurd habs (by simp)
      · intro ⟨hall, _⟩
        have := hall i hi
        omega
    · constructor
      · intro habs
        exact absurd habs (by simp)
      · intro ⟨_, hne⟩
        exact absurd h2 hne
    · simp only [List.any_eq_true, List.mem_range, decide_eq_true_eq] at h1
      push_neg at h1
      constructor
      · intro _
        exact ⟨fun i hi => by have := h1 i hi; omega, fun e => h2 e⟩
      · intro _
        rfl

/-- C5 counterexample: with `lastOperationTime` 2020-01-01 00:00:00 and
current time 2020-01-01 05:00:00, the spec's description of the DAY check
(coarser components equal, hour differs) says the boundary was crossed, but
`__is_after(DAY)` returns `False` because it compares the day component
itself. -/
theorem isAfter_counterexample :
    specIsAfter ltC5 nwC5 .DAY = true ∧ isAfter ltC5 nwC5 .DAY = .ok false := by
  constructor
  · decide
  · rfl

/-- C5 witness: the corrected characterisation applied at the DAY unit for a
concrete pair of times (the day component differs and nothing decreased, so
the check returns `True`). -/
theorem isAfter_semantics_witness :
    isAfter ⟨2020, 1, 1, 5, 0, 0⟩ ⟨2020, 1, 2, 3, 0, 0⟩ .DAY = .ok true ↔
      (∀ i, i < TimeUnit.DAY.value →
        (timetuple ⟨2020, 1, 1, 5, 0, 0⟩).getD i 0 ≤ (timetuple ⟨2020, 1, 2, 3, 0, 0⟩).getD i 0) ∧
      (timetuple ⟨2020, 1, 2, 3, 0, 0⟩).getD TimeUnit.DAY.value 0 ≠
        (timetuple ⟨2020, 1, 1, 5, 0, 0⟩).getD TimeUnit.DAY.value 0 :=
  (isAfter_semantics ⟨2020, 1, 1, 5, 0, 0⟩ ⟨2020, 1, 2, 3, 0, 0⟩ .DAY).2 (by decide)


/-- C6 (corrected): `request` consults neither the `LIMITS` section nor the
`cooldown` value: when no tracked unit's boundary check fires, a successful
invocation increments every tracked counter unconditionally — even a counter
already at or over its configured maximum — so the configured quota can be
exceeded (the limiter is advisory; callers must wait on `cooldown` itself). -/
theorem request_no_limit_enforcement
    (st : LimiterState) (now : DateTime) (u : TimeUnit) (c : Nat)
    (sec : CfgSection) (v : String) (m : Int)
    (hnd : (keyList st.usage).Nodup)
    (hall : ∀ k ∈ keyList st.usage, isAfter st.latest now k = .ok false)
    (hc : getKV st.usage u = some c)
    (hsec : getKV st.config "LIMITS" = some sec)
    (hv : getKV sec (unitKey u) = some v)
    (hm : intParse v = .ok m)
    (hlim : m ≤ (c : Int)) :
    (reqSuccessState (Except.ok ()) now st).map (fun s => getKV s.usage u) = some (some (c + 1)) ∧
      m < (c : Int) + 1 := by
  obtain ⟨h2, h1⟩ := requestLoop_all_false st.latest now (keyList st.usage) st.usage hnd hall
  have hsplit : requestLoop st.latest now (keyList st.usage) st.usage
      = ((requestLoop st.latest now (keyList st.usage) st.usage).1, none) := by
    rw [← h2]
  have hout : reqSuccessState (Except.ok ()) now st
      = some { st with usage := (requestLoop st.latest now (keyList st.usage) st.usage).1,
                       latest := now } := by
    rw [reqSuccessState, request, hsplit]
  rw [hout]
  have hmem : u ∈ keyList st.usage := (mem_keyList_iff_getKV st.usage u).mpr (by rw [hc]; rfl)
  have hval := h1 u
  rw [if_pos hmem, hc] at hval
  constructor
  · rw [Option.map_some', hval]
    rfl
  · omega

/-- C6 counterexample: from the persisted limit `day = 1`, two successful
requests in the same day drive the DAY counter to 2, strictly above the
configured maximum 1 — the reachable state violates "quotas are never
exceeded". -/
theorem limits_exceeded_counterexample :
    initRL (some cfgC6) tC6 = .ok stC6 ∧
    request (Except.ok () : Except Unit Unit) tC6 stC6 = .success () stC6b ∧
    request (Except.ok () : Except Unit Unit) tC6 stC6b = .success () stC6c ∧
    getKV stC6c.usage .DAY = some 2 ∧
    getKV ((getKV stC6c.config "LIMITS").getD []) "day" = some "1" ∧
    intParse "1" = .ok 1 ∧ (1 : Int) < 2 :=
  ⟨rfl, rfl, rfl, rfl, rfl, rfl, by decide⟩

/-- C6 witness: the no-enforcement theorem applied to `stC6b` (DAY counter
already equal to the maximum 1): the next successful request still increments
it to 2. -/
theorem request_no_limit_enforcement_witness :
    (reqSuccessState (Except.ok ()) tC6 stC6b).map (fun s => getKV s.usage .DAY) =
        some (some 2) ∧ (1 : Int) < (1 : Nat) + 1 :=
  request_no_limit_enforcement stC6b tC6 .DAY 1 [("day", "1")] "1" 1
    (by decide) (by decide) (by decide) (by decide) (by decide) (by decide) (by decide)

/-- C2 (corrected): when a successful `request` runs with the tracked units
iterated in strictly coarse-to-fine order, the CODE's boundary check
`__is_after` returning `True` for tracked unit `u` and `False` for every
coarser tracked unit, then afterwards `u`'s counter and every finer tracked
unit's counter equal exactly 1, every coarser tracked unit's counter equals
its prior value plus 1, and `latest_time` becomes `now`.  (The original
claim's trigger — a crossed calendar boundary — does not imply the code's
check fires, and with other iteration orders a finer unit can end at 0; see
the counterexample.) -/
theorem request_rollover_reset_increment
    (st : LimiterState) (now : DateTime) (pre post : List TimeUnit) (u j : TimeUnit) (c : Nat)
    (hkeys : keyList st.usage = pre ++ u :: post)
    (hsort : List.Pairwise (fun a b : TimeUnit => a.value < b.value) (pre ++ u :: post))
    (hpre : ∀ k ∈ pre, isAfter st.latest now k = .ok false)
    (hu : isAfter st.latest now u = .ok true)
    (hc : getKV st.usage j = some c) :
    (reqSuccessState (Except.ok ()) now st).map (fun s => (getKV s.usage j, s.latest)) =
      some (if u.value ≤ j.value then some 1 else some (c + 1), now) := by
  obtain ⟨hsortPre, hsortUP, hcross⟩ := List.pairwise_append.mp hsort
  have hndPre : pre.Nodup := hsortPre.imp (fun hab => by intro he; subst he; omega)
  obtain ⟨hp2, hp1⟩ := requestLoop_all_false st.latest now pre st.usage hndPre hpre
  have hkeys1 : keyList (requestLoop st.latest now pre st.usage).1 = keyList st.usage := by
    apply keyList_requestLoop
    intro k hk
    rw [hkeys]
    exact List.mem_append_left _ hk
  have hutr : u ∈ keyList (requestLoop st.latest now pre st.usage).1 := by
    rw [hkeys1, hkeys]
    exact List.mem_append_right _ (by simp)
  have hus : (getKV (requestLoop st.latest now pre st.usage).1 u).isSome :=
    (mem_keyList_iff_getKV _ _).mp hutr
  have hred : requestLoop st.latest now (u :: post) (requestLoop st.latest now pre st.usage).1
      = requestLoop st.latest now post
          (incrKV (resetUsage (requestLoop st.latest now pre st.usage).1 u) u) := by
    rw [requestLoop, hu]
    rfl
  have hreset := getKV_resetUsage (requestLoop st.latest now pre st.usage).1 u hus
  have hkeysR : keyList (resetUsage (requestLoop st.latest now pre st.usage).1 u)
      = keyList st.usage := by
    rw [keyList_resetUsage, hkeys1]
  have hutrR : u ∈ keyList (resetUsage (requestLoop st.latest now pre st.usage).1 u) := by
    rw [hkeysR, hkeys]
    exact List.mem_append_right _ (by simp)
  have hkeys2 : keyList (incrKV (resetUsage (requestLoop st.latest now pre st.usage).1 u) u)
      = keyList st.usage := by
    rw [keyList_incrKV _ _ hutrR, hkeysR]
  have h2u : getKV (incrKV (resetUsage (requestLoop st.latest now pre st.usage).1 u) u) u
      = some 1 := by
    rw [getKV_incrKV_self, hreset u, if_pos ⟨Nat.le_refl _, hus⟩]
    rfl
  have h2 : ∀ k2, k2 ≠ u →
      getKV (incrKV (resetUsage (requestLoop st.latest now pre st.usage).1 u) u) k2 =
        if u.value ≤ k2.value ∧ (getKV (requestLoop st.latest now pre st.usage).1 k2).isSome
        then some 0 else getKV (requestLoop st.latest now pre st.usage).1 k2 :=
    fun k2 hk2 => by rw [getKV_incrKV_ne _ _ _ hk2, hreset k2]
  have hupost : u ∉ post := by
    intro hmem
    have := (List.pairwise_cons.mp hsortUP).1 u hmem
    omega
  obtain ⟨ho2, ho1⟩ := requestLoop_ones st.latest now post
    (incrKV (resetUsage (requestLoop st.latest now pre st.usage).1 u) u) (u.value + 1)
    (by omega) (List.pairwise_cons.mp hsortUP).2
    (by
      intro r hr
      have hrv : u.value < r.value := (List.pairwise_cons.mp hsortUP).1 r hr
      have hru : r ≠ u := fun e => by subst e; omega
      have hrtr : r ∈ keyList st.usage := by
        rw [hkeys]
        exact List.mem_append_right _ (by simp [hr])
      have hrs : (getKV (requestLoop st.latest now pre st.usage).1 r).isSome := by
        rw [← mem_keyList_iff_getKV, hkeys1]
        exact hrtr
      exact ⟨by omega, by rw [hkeys2]; exact hrtr, by rw [h2 r hru, if_pos ⟨by omega, hrs⟩]⟩)
    (by
      intro j2 hj2tr hj2v hj2p
      exfalso
      rw [hkeys2, hkeys] at hj2tr
      rcases List.mem_append.mp hj2tr with hj2 | hj2
      · have := hcross j2 hj2 u (by simp)
        omega
      · rcases List.mem_cons.mp hj2 with hj2 | hj2
        · subst hj2
          omega
        · exact hj2p hj2)
  have hchain : requestLoop st.latest now (keyList st.usage) st.usage
      = requestLoop st.latest now post
          (incrKV (resetUsage (requestLoop st.latest now pre st.usage).1 u) u) := by
    rw [hkeys, requestLoop_append st.latest now pre (u :: post) st.usage hp2, hred]
  have hsplit : requestLoop st.latest now (keyList st.usage) st.usage
      = ((requestLoop st.latest now post
            (incrKV (resetUsage (requestLoop st.latest now pre st.usage).1 u) u)).1, none) := by
    rw [hchain, ← ho2]
  have hout : reqSuccessState (Except.ok ()) now st
      = some { st with
          usage := (requestLoop st.latest now post
            (incrKV (resetUsage (requestLoop st.latest now pre st.usage).1 u) u)).1,
          latest := now } := by
    rw [reqSuccessState, request, hsplit]
  rw [hout, Option.map_some']
  simp only [Option.some.injEq, Prod.mk.injEq]
  refine ⟨?_, trivial⟩
  have hjtr : j ∈ keyList st.usage := (mem_keyList_iff_getKV st.usage j).mpr (by rw [hc]; rfl)
  rw [ho1 j]
  rw [hkeys] at hjtr
  rcases List.mem_append.mp hjtr with hjpre | hjup
  · have hjltu : j.value < u.value := hcross j hjpre u (by simp)
    have hjnp : j ∉ post := by
      intro hmem
      have := hcross j hjpre j (by simp [hmem])
      omega
    have hjnu : j ≠ u := fun e => by subst e; omega
    rw [if_neg hjnp, h2 j hjnu, if_neg (by intro h; omega), hp1 j, if_pos hjpre, hc,
      if_neg (by omega)]
    rfl
  · rcases List.mem_cons.mp hjup with hju | hjpost
    · subst hju
      rw [if_neg hupost, h2u, if_pos (Nat.le_refl _)]
    · have : u.value < j.value := (List.pairwise_cons.mp hsortUP).1 j hjpost
      rw [if_pos hjpost, if_pos (by omega)]

/-- C2 counterexample: only DAY is tracked (count 5), `lastOperationTime` is
2020-01-15 10:00:00 and the request runs at 2020-02-15 09:00:00 — a full month
later, so the day boundary has certainly been crossed — yet the DAY counter
becomes 6, not 1: `__is_after(DAY)` compares the equal day-of-month components
and misses the rollover entirely. -/
theorem request_rollover_counterexample :
    daysFromCivil 2020 1 15 < daysFromCivil 2020 2 15 ∧
    request (Except.ok () : Except Unit Unit) nowC2 stC2 =
      .success () { stC2 with usage := [(.DAY, 6)], latest := nowC2 } ∧
    getKV [((.DAY : TimeUnit), (6 : Nat))] .DAY ≠ some 1 :=
  ⟨by decide, rfl, by decide⟩

/-- C2 witness: tracked units DAY, HOUR, MINUTE in coarse-to-fine order, the
HOUR check fires (DAY's does not): the coarser DAY counter goes from 5 to 6,
while HOUR and MINUTE are reset-then-incremented to 1. -/
theorem request_rollover_reset_increment_witness :
    (reqSuccessState (Except.ok ()) nowC2w stC2w).map (fun s => (getKV s.usage .DAY, s.latest)) =
      some (if TimeUnit.HOUR.value ≤ TimeUnit.DAY.value then some 1 else some (5 + 1), nowC2w) :=
  request_rollover_reset_increment stC2w nowC2w [.DAY] [.MINUTE] .HOUR .DAY 5
    (by decide) (by decide) (by decide) (by decide) (by decide)

theorem truncToSecond_eq (t : DateTime) : truncToSecond t = t := rfl

theorem calculateCooldown_fine (latest : DateTime) (u : TimeUnit)
    (h : TimeUnit.DAY.value ≤ u.value) :
    calculateCooldown latest u = .ok (spanSeconds u) := by
  cases u with
  | YEAR => simp [TimeUnit.value] at h
  | MONTH => simp [TimeUnit.value] at h
  | DAY =>
      simp only [calculateCooldown, truncToSecond_eq, spanSeconds, Except.ok.injEq]
      omega
  | HOUR =>
      simp only [calculateCooldown, truncToSecond_eq, spanSeconds, Except.ok.injEq]
      omega
  | MINUTE =>
      simp only [calculateCooldown, truncToSecond_eq, spanSeconds, Except.ok.injEq]
      omega
  | SECOND =>
      simp only [calculateCooldown, truncToSecond_eq, spanSeconds, Except.ok.injEq]
      omega

theorem cooldownGo_below (usage : List (TimeUnit × Nat)) (latest : DateTime) :
    ∀ sec : CfgSection,
      (∀ kv ∈ sec, ∀ u : TimeUnit, parseUnit kv.1 = some u →
        (getKV usage u).isSome ∧ ∃ m : Int, intParse kv.2 = .ok m) →
      (∀ kv ∈ sec, ∀ (u : TimeUnit) (c : Nat) (m : Int), parseUnit kv.1 = some u →
        getKV usage u = some c → intParse kv.2 = .ok m → (c : Int) < m) →
      cooldownGo usage latest sec = .ok 0 := by
  intro sec
  induction sec with
  | nil => intro hwf hlow; rfl
  | cons kv rest ih =>
      intro hwf hlow
      obtain ⟨k, v⟩ := kv
      cases hpk : parseUnit k with
      | none =>
          rw [cooldownGo, hpk]
          exact ih (fun kv2 h2 => hwf kv2 (by simp [h2])) (fun kv2 h2 => hlow kv2 (by simp [h2]))
      | some u =>
          obtain ⟨hsome, m, hm⟩ := hwf (k, v) (by simp) u hpk
          obtain ⟨c, hcu⟩ := Option.isSome_iff_exists.mp hsome
          have hlt : (c : Int) < m := hlow (k, v) (by simp) u c m hpk hcu hm
          rw [cooldownGo, hpk]
          simp only [hcu, hm]
          rw [if_neg (by omega)]
          exact ih (fun kv2 h2 => hwf kv2 (by simp [h2])) (fun kv2 h2 => hlow kv2 (by simp [h2]))

/-- C1 (corrected): `cooldown` returns 0.0 when every limited unit is below
its maximum; otherwise, for the first `LIMITS` entry (in the section's order)
whose usage count is `>=` its limit, it returns the seconds from
`lastOperationTime` to `lastOperationTime` itself (truncated to whole seconds)
plus one unit — the code copies ALL six calendar components rather than
zeroing those finer than the unit, so the result is the unit's full span
(86400 / 3600 / 60 / 1 seconds for DAY / HOUR / MINUTE / SECOND), not the
time to the next calendar boundary; for YEAR and MONTH the computation raises
`TypeError` instead. -/
theorem cooldown_first_limited_span
    (st : LimiterState) (sec : CfgSection)
    (hsec : getKV st.config "LIMITS" = some sec)
    (hwf : ∀ kv ∈ sec, ∀ u : TimeUnit, parseUnit kv.1 = some u →
      (getKV st.usage u).isSome ∧ ∃ m : Int, intParse kv.2 = .ok m) :
    ((∀ kv ∈ sec, ∀ (u : TimeUnit) (c : Nat) (m : Int), parseUnit kv.1 = some u →
        getKV st.usage u = some c → intParse kv.2 = .ok m → (c : Int) < m) →
      cooldown st = .ok 0) ∧
    (∀ (fore : CfgSection) (k v : String) (aft : CfgSection) (u : TimeUnit) (c : Nat) (m : Int),
      sec = fore ++ (k, v) :: aft →
      (∀ kv ∈ fore, ∀ (u2 : TimeUnit) (c2 : Nat) (m2 : Int), parseUnit kv.1 = some u2 →
        getKV st.usage u2 = some c2 → intParse kv.2 = .ok m2 → (c2 : Int) < m2) →
      parseUnit k = some u → getKV st.usage u = some c → intParse v = .ok m →
      m ≤ (c : Int) → TimeUnit.DAY.value ≤ u.value →
      cooldown st = .ok (spanSeconds u)) := by
  constructor
  · intro hlow
    rw [cooldown, hsec]
    exact cooldownGo_below st.usage st.latest sec hwf hlow
  · intro fore k v aft u c m hdec hlowf hpk hcu hmv hle hfine
    rw [cooldown, hsec, hdec]
    show cooldownGo st.usage st.latest (fore ++ (k, v) :: aft) = Except.ok (spanSeconds u)
    have hskip : ∀ fore2 : CfgSection,
        (∀ kv ∈ fore2, kv ∈ sec) →
        (∀ kv ∈ fore2, ∀ (u2 : TimeUnit) (c2 : Nat) (m2 : Int), parseUnit kv.1 = some u2 →
          getKV st.usage u2 = some c2 → intParse kv.2 = .ok m2 → (c2 : Int) < m2) →
        cooldownGo st.usage st.latest (fore2 ++ (k, v) :: aft)
          = cooldownGo st.usage st.latest ((k, v) :: aft) := by
      intro fore2
      induction fore2 with
      | nil => intro hsub hlow2; rfl
      | cons kv2 rest2 ih2 =>
          intro hsub hlow2
          obtain ⟨k2, v2⟩ := kv2
          cases hpk2 : parseUnit k2 with
          | none =>
              rw [List.cons_append, cooldownGo, hpk2]
              exact ih2 (fun p hp => hsub p (by simp [hp])) (fun p hp => hlow2 p (by simp [hp]))
          | some u2 =>
              obtain ⟨hsome2, m2, hm2⟩ := hwf (k2, v2) (hsub (k2, v2) (by simp)) u2 hpk2
              obtain ⟨c2, hcu2⟩ := Option.isSome_iff_exists.mp hsome2
              have hlt2 : (c2 : Int) < m2 := hlow2 (k2, v2) (by simp) u2 c2 m2 hpk2 hcu2 hm2
              rw [List.cons_append, cooldownGo, hpk2]
              simp only [hcu2, hm2]
              rw [if_neg (by omega)]
              exact ih2 (fun p hp => hsub p (by simp [hp])) (fun p hp => hlow2 p (by simp [hp]))
    rw [hskip fore (fun p hp => by rw [hdec]; exact List.mem_append_left _ hp) hlowf]
    rw [cooldownGo, hpk]
    simp only [hcu, hmv]
    rw [if_pos hle]
    exact calculateCooldown_fine st.latest u hfine

/-- C1 counterexample: daily limit reached, `lastOperationTime` 2020-01-01
01:00:00.  The spec's boundary (truncate to midnight, add one day) gives
82800 seconds to 2020-01-02 00:00:00, but `cooldown` returns 86400 — the code
never zeroes the components finer than DAY. -/
theorem cooldown_day_counterexample :
    cooldown stC1 = .ok 86400 ∧ specCooldownDay stC1.latest = 82800 ∧ (86400 : Int) ≠ 82800 :=
  ⟨rfl, by decide, by decide⟩

/-- C1 witness: a per-minute limit of 2 already reached yields a cooldown of
exactly 60 seconds (the minute's full span), via the corrected theorem at the
first (and only) `LIMITS` entry. -/
theorem cooldown_first_limited_span_witness :
    cooldown stC1w = .ok (spanSeconds .MINUTE) :=
  (cooldown_first_limited_span stC1w [("minute", "2")] rfl
      (by
        intro kv hkv u hpu
        rw [List.mem_singleton.mp hkv] at hpu ⊢
        have h2 : (some TimeUnit.MINUTE : Option TimeUnit) = some u := hpu
        injection h2 with h3
        subst h3
        exact ⟨by decide, 2, by decide⟩)).2
    [] "minute" "2" [] .MINUTE 2 2 rfl (by intro kv hkv; cases hkv)
    (by decide) (by decide) (by decide) (by decide) (by decide)

/-- C7 (code_bug): for EVERY `lastOperationTime`, computing the cooldown for
the YEAR or MONTH unit reaches the `timedelta(years=1)` / `timedelta(months=1)`
call, which raises `TypeError` (`timedelta` has no such keyword arguments), so
the promised year/month calendar arithmetic never happens; in particular a
limiter whose yearly limit is reached raises instead of returning a cooldown. -/
theorem calculateCooldown_year_month_error :
    (∀ t : DateTime,
      calculateCooldown t .YEAR = .error "TypeError: years is an invalid keyword argument" ∧
      calculateCooldown t .MONTH = .error "TypeError: months is an invalid keyword argument") ∧
    cooldown stC7 = .error "TypeError: years is an invalid keyword argument" :=
  ⟨fun t => ⟨rfl, rfl⟩, rfl⟩

/-- C3 (code_bug): `update_limits` never stores an integer limit.  The guard
`value is int` tests identity with the TYPE OBJECT `int` (the code's own
comment says "should be checking for int"), so an actual integer value fails
it, the entry is skipped, and the limit set is left unchanged — the file is
rewritten with the old contents.  (Had the guard passed, `key.name` on the
`str` key would raise `AttributeError`, so a limit can never be stored.) -/
theorem updateLimits_int_rejected
    (st : LimiterState) (kwargs : List (String × PyVal))
    (h : ∀ p ∈ kwargs, ∃ n : Int, p.2 = .vint n) :
    updateLimits kwargs st = .ok (st, st.config) := by
  have hgo : ∀ kw : List (String × PyVal), (∀ p ∈ kw, ∃ n : Int, p.2 = .vint n) →
      updateLimitsGo kw = .ok () := by
    intro kw
    induction kw with
    | nil => intro h2; rfl
    | cons p rest ih =>
        intro h2
        obtain ⟨k, v⟩ := p
        obtain ⟨n, hn⟩ := h2 (k, v) (by simp)
        simp only at hn
        subst hn
        rw [updateLimitsGo, if_neg (by simp [pyIsTypeInt])]
        exact ih (fun q hq => h2 q (by simp [hq]))
  rw [updateLimits, hgo kwargs h]

/-- C3 witness: `update_limits(day=5)` on a configured limiter is a no-op on
the state — in particular the `LIMITS` section is unchanged and only the old
configuration is written back. -/
theorem updateLimits_int_rejected_witness :
    updateLimits [("day", PyVal.vint 5)] stC6 = .ok (stC6, stC6.config) :=
  updateLimits_int_rejected stC6 [("day", .vint 5)]
    (fun p hp => by rw [List.mem_singleton.mp hp]; exact ⟨5, rfl⟩)

/-- C10 (confirmed): constructing a `RateLimiter` from a file that has a
`USAGE` section but no `LIMITS` section discards the persisted usage:
`self.config['USAGE'] = dict()` clears the section before it is read, so the
usage map comes out empty and `latest_time` falls back to the current
wall-clock time, whatever the persisted values were. -/
theorem init_no_limits_discards_usage
    (cfg : ConfigFile) (now : DateTime) (sec : CfgSection)
    (husage : getKV cfg "USAGE" = some sec)
    (hlim : getKV cfg "LIMITS" = none) :
    (initRL (some cfg) now).toOption.map (fun s => (s.usage, s.latest)) = some ([], now) := by
  simp only [initRL, hlim, Option.isNone_none, if_pos, getKV_updKV_self]
  rfl

/-- C10 witness: a file persisting `day = 7` and a `latest_time` but no
`LIMITS` section loads as an empty usage map with `latest_time = now`. -/
theorem init_no_limits_discards_usage_witness :
    (initRL (some cfgC10) ⟨2021, 2, 3, 4, 5, 6⟩).toOption.map (fun s => (s.usage, s.latest)) =
      some ([], ⟨2021, 2, 3, 4, 5, 6⟩) :=
  init_no_limits_discards_usage cfgC10 ⟨2021, 2, 3, 4, 5, 6⟩
    [("day", "7"), ("latest_time", "2020-05-05 01:02:03")] rfl rfl

theorem getKV_writeUsage_LIMITS (st : LimiterState) :
    getKV (writeUsage st) "LIMITS" = getKV st.config "LIMITS" := by
  rw [writeUsage]
  exact getKV_updKV_ne _ _ _ _ (by decide)

theorem initUsageGo_mem : ∀ (keys : List String) (acc res : List (TimeUnit × Nat)),
    initUsageGo keys acc = .ok res → ∀ u : TimeUnit,
      (getKV res u).isSome ↔ ((getKV acc u).isSome ∨ ∃ k ∈ keys, parseUnit k = some u) := by
  intro keys
  induction keys with
  | nil =>
      intro acc res h u
      rw [initUsageGo] at h
      injection h with h2
      subst h2
      simp
  | cons k rest ih =>
      intro acc res h u
      cases hpk : parseUnit k with
      | none =>
          rw [initUsageGo, hpk] at h
          cases h
      | some u2 =>
          rw [initUsageGo, hpk] at h
          rw [ih _ res h u]
          by_cases he : u = u2
          · subst he
            simp only [getKV_updKV_self]
            constructor
            · intro _
              exact Or.inr ⟨k, by simp, hpk⟩
            · intro _
              exact Or.inl rfl
          · rw [getKV_updKV_ne _ _ _ _ he]
            constructor
            · intro h2
              rcases h2 with h2 | ⟨k2, hk2, hp2⟩
              · exact Or.inl h2
              · exact Or.inr ⟨k2, by simp [hk2], hp2⟩
            · intro h2
              rcases h2 with h2 | ⟨k2, hk2, hp2⟩
              · exact Or.inl h2
              · rcases List.mem_cons.mp hk2 with hk2 | hk2
                · subst hk2
                  rw [hpk] at hp2
                  injection hp2 with hp3
                  exact absurd hp3.symm he
                · exact Or.inr ⟨k2, hk2, hp2⟩

theorem tracked_trans (st st2 : LimiterState)
    (husage : keyList st2.usage = keyList st.usage)
    (hlim : getKV st2.config "LIMITS" = getKV st.config "LIMITS") :
    TrackedIffLimited st → TrackedIffLimited st2 := by
  intro h u
  have e1 : (getKV st2.usage u).isSome ↔ (getKV st.usage u).isSome := by
    rw [← mem_keyList_iff_getKV, ← mem_keyList_iff_getKV, husage]
  constructor
  · intro hs
    rw [hlim]
    exact (h u).mp (e1.mp hs)
  · intro he
    rw [hlim] at he
    exact e1.mpr ((h u).mpr he)

/-- C9 (corrected): the tracked-iff-limited invariant holds after fresh
construction, holds after construction from any persisted file that has no
`USAGE` section (usage is then initialised from `LIMITS`), and is preserved
by `request` (in all outcomes) and by `update_limits` (which never changes
the state).  It does NOT survive construction from a file WITH a `USAGE`
section: usage is then rebuilt solely from that section, whatever `LIMITS`
says — see the counterexample. -/
theorem tracked_iff_limited_amended :
    (∀ (now : DateTime) (st : LimiterState), initRL none now = .ok st → TrackedIffLimited st) ∧
    (∀ (cfg : ConfigFile) (now : DateTime) (st : LimiterState),
      getKV cfg "USAGE" = none → initRL (some cfg) now = .ok st → TrackedIffLimited st) ∧
    (∀ (ε α : Type) (fres : Except ε α) (now : DateTime) (st : LimiterState),
      TrackedIffLimited st → TrackedIffLimited (reqOutState (request fres now st))) ∧
    (∀ (kwargs : List (String × PyVal)) (st st2 : LimiterState) (f : ConfigFile),
      updateLimits kwargs st = .ok (st2, f) → TrackedIffLimited st → TrackedIffLimited st2) := by
  refine ⟨?_, ?_, ?_, ?_⟩
  · intro now st h
    rw [initRL] at h
    injection h with h2
    subst h2
    intro u
    constructor
    · intro hs
      exact absurd hs (by simp [getKV])
    · intro ⟨kv, hkv, _⟩
      exact absurd hkv (by simp [getKV])
  · intro cfg now st hus h
    rcases ho : getKV cfg "LIMITS" with _ | lsec
    · rw [initRL, ho] at h
      simp only [Option.isNone_none, if_true, getKV_updKV_self] at h
      simp only [getKV] at h
      injection h with h2
      subst h2
      intro u
      constructor
      · intro hs
        exact absurd hs (by simp [loadUsage, loadUsageGo, getKV])
      · intro ⟨kv, hkv, _⟩
        rw [getKV_updKV_ne _ _ _ _ (by decide), ho] at hkv
        exact absurd hkv (by simp)
    · rw [initRL, ho] at h
      simp only [Option.isNone_some, Bool.false_eq_true, if_false, hus, ho,
        Option.getD_some] at h
      rcases hg : initUsageGo (keyList lsec) [] with e | usage
      · rw [hg] at h
        simp at h
      · rw [hg] at h
        simp only at h
        injection h with h2
        subst h2
        intro u
        have hmem := initUsageGo_mem (keyList lsec) [] usage hg u
        constructor
        · intro hs
          rcases hmem.mp hs with h2 | ⟨k, hk, hp⟩
          · exact absurd h2 (by simp [getKV])
          · simp only [keyList, Option.getD] at hk
            obtain ⟨⟨k2, v2⟩, hkv2, he⟩ := List.mem_map.mp hk
            refine ⟨(k2, v2), ?_, ?_⟩
            · rw [getKV_updKV_ne _ _ _ _ (by decide), ho]
              exact hkv2
            · simp only at he
              rw [he]
              exact hp
        · intro ⟨kv, hkv, hp⟩
          rw [getKV_updKV_ne _ _ _ _ (by decide), ho] at hkv
          simp only [Option.getD] at hkv
          apply hmem.mpr
          refine Or.inr ⟨kv.1, ?_, hp⟩
          simp only [keyList, Option.getD]
          exact List.mem_map.mpr ⟨kv, hkv, rfl⟩
  · intro ε α fres now st h
    cases fres with
    | error e =>
        exact tracked_trans st { st with config := writeUsage st } rfl
          (getKV_writeUsage_LIMITS st) h
    | ok a =>
        rcases hq : requestLoop st.latest now (keyList st.usage) st.usage with ⟨u2, res⟩
        have hkeq : keyList u2 = keyList st.usage := by
          have hx := keyList_requestLoop st.latest now (keyList st.usage) st.usage (fun k hk => hk)
          rw [hq] at hx
          exact hx
        cases res with
        | none =>
            have hred : reqOutState (request (Except.ok a : Except ε α) now st)
                = { st with usage := u2, latest := now } := by
              rw [request, hq]
              rfl
            rw [hred]
            exact tracked_trans st _ hkeq rfl h
        | some err =>
            have hred : reqOutState (request (Except.ok a : Except ε α) now st)
                = { st with usage := u2, config := writeUsage { st with usage := u2 } } := by
              rw [request, hq]
              rfl
            rw [hred]
            exact tracked_trans st _ hkeq
              (getKV_writeUsage_LIMITS { st with usage := u2 }) h
  · intro kwargs st st2 f h hinv
    rw [updateLimits] at h
    cases hg : updateLimitsGo kwargs with
    | error e =>
        rw [hg] at h
        simp at h
    | ok r =>
        rw [hg] at h
        injection h with h2
        injection h2 with h3 h4
        subst h3
        exact hinv

/-- C9 counterexample: a file declaring `LIMITS day = 5` whose `USAGE`
section holds only `latest_time` constructs a limiter with an EMPTY usage
map: DAY is limited but not tracked, violating the claimed iff-invariant. -/
theorem tracked_iff_limited_counterexample :
    initRL (some cfgC9) ⟨2021, 1, 1, 0, 0, 0⟩ = .ok stC9 ∧ ¬TrackedIffLimited stC9 := by
  refine ⟨rfl, ?_⟩
  intro h
  have h2 := (h .DAY).mpr ⟨("day", "5"), by decide, by decide⟩
  exact absurd h2 (by decide)

/-- C9 witness: the invariant holds for the limiter built from `cfgC6`
(`LIMITS` present, no `USAGE` section), via the amended theorem's second
part. -/
theorem tracked_iff_limited_amended_witness : TrackedIffLimited stC6 :=
  tracked_iff_limited_amended.2.1 cfgC6 tC6 stC6 rfl rfl

theorem unitKey_inj (a b : TimeUnit) (h : unitKey a = unitKey b) : a = b := by
  cases a <;> cases b <;> first
    | rfl
    | exact absurd h (by decide)

theorem getKV_eq_none {κ α : Type} [DecidableEq κ] (l : List (κ × α)) (k : κ)
    (h : k ∉ keyList l) : getKV l k = none := by
  cases h2 : getKV l k with
  | none => rfl
  | some v =>
      exact absurd ((mem_keyList_iff_getKV l k).mpr (by rw [h2]; rfl)) h

theorem getKV_mem_pair {κ α : Type} [DecidableEq κ] (l : List (κ × α)) (k : κ) (v : α)
    (h : getKV l k = some v) : (k, v) ∈ l := by
  induction l with
  | nil => cases h
  | cons p rest ih =>
      obtain ⟨k0, v0⟩ := p
      by_cases hk : k0 = k
      · subst hk
        rw [getKV, if_pos rfl] at h
        injection h with h2
        subst h2
        exact List.mem_cons_self _ _
      · rw [getKV, if_neg hk] at h
        exact List.mem_cons_of_mem _ (ih h)

theorem keyList_updKV_not_mem {κ α : Type} [DecidableEq κ] (l : List (κ × α)) (k : κ) (v : α)
    (h : k ∉ keyList l) : keyList (updKV l k v) = keyList l ++ [k] := by
  induction l with
  | nil => rfl
  | cons p rest ih =>
      obtain ⟨k0, v0⟩ := p
      rw [keyList_cons, List.mem_cons] at h
      push_neg at h
      rw [updKV, if_neg (fun e => h.1 e.symm), keyList_cons, keyList_cons, ih h.2,
        List.cons_append]

theorem nodup_keyList_updKV {κ α : Type} [DecidableEq κ] (l : List (κ × α)) (k : κ) (v : α)
    (h : (keyList l).Nodup) : (keyList (updKV l k v)).Nodup := by
  by_cases hm : k ∈ keyList l
  · rw [keyList_updKV_mem l k v hm]
    exact h
  · rw [keyList_updKV_not_mem l k v hm]
    simp [List.nodup_append, h, hm]

theorem nodup_fold_units (usage : List (TimeUnit × Nat)) :
    ∀ s0 : CfgSection, (keyList s0).Nodup →
      (keyList (usage.foldl (fun s p => updKV s (unitKey p.1) (natToString p.2)) s0)).Nodup := by
  induction usage with
  | nil => intro s0 h; exact h
  | cons p rest ih =>
      intro s0 h
      rw [List.foldl_cons]
      exact ih _ (nodup_keyList_updKV s0 _ _ h)

theorem getKV_fold_units_ne (usage : List (TimeUnit × Nat)) :
    ∀ (s0 : CfgSection) (key : String),
      (∀ p ∈ usage, unitKey p.1 ≠ key) →
      getKV (usage.foldl (fun s p => updKV s (unitKey p.1) (natToString p.2)) s0) key
        = getKV s0 key := by
  induction usage with
  | nil => intro s0 key h; rfl
  | cons p rest ih =>
      intro s0 key h
      rw [List.foldl_cons, ih _ key (fun q hq => h q (by simp [hq])),
        getKV_updKV_ne _ _ _ _ (fun e => h p (by simp) e.symm)]

theorem getKV_fold_units_mem (usage : List (TimeUnit × Nat)) :
    ∀ (s0 : CfgSection) (u : TimeUnit) (c : Nat),
      (keyList usage).Nodup → (u, c) ∈ usage →
      getKV (usage.foldl (fun s p => updKV s (unitKey p.1) (natToString p.2)) s0) (unitKey u)
        = some (natToString c) := by
  induction usage with
  | nil => intro s0 u c hnd hm; cases hm
  | cons p rest ih =>
      intro s0 u c hnd hm
      obtain ⟨u0, c0⟩ := p
      rw [keyList_cons] at hnd
      have hnd1 := (List.nodup_cons.mp hnd).1
      have hnd2 := (List.nodup_cons.mp hnd).2
      rcases List.mem_cons.mp hm with he | hm2
      · injection he with he1 he2
        subst he1
        subst he2
        rw [List.foldl_cons]
        rw [getKV_fold_units_ne rest _ (unitKey u) ?_]
        · exact getKV_updKV_self _ _ _
        · intro q hq he
          have : q.1 = u := unitKey_inj _ _ he
          apply hnd1
          rw [← this]
          exact List.mem_map.mpr ⟨q, hq, rfl⟩
      · have hu : u ∈ keyList rest := List.mem_map.mpr ⟨(u, c), hm2, rfl⟩
        rw [List.foldl_cons]
        exact ih _ u c hnd2 hm2

theorem getKV_loadUsageGo :
    ∀ (sec : CfgSection) (acc : List (TimeUnit × Nat)) (u : TimeUnit),
      (keyList sec).Nodup →
      getKV (loadUsageGo sec acc) u =
        (match getKV sec (unitKey u) with
         | some v => if isdigitStr v then some (charsToNat v.data) else getKV acc u
         | none => getKV acc u) := by
  intro sec
  induction sec with
  | nil => intro acc u h; rfl
  | cons kv rest ih =>
      intro acc u hnd
      obtain ⟨k, w⟩ := kv
      rw [keyList_cons] at hnd
      have hnd1 := (List.nodup_cons.mp hnd).1
      have hnd2 := (List.nodup_cons.mp hnd).2
      by_cases hk : k = unitKey u
      · subst hk
        have hnone : getKV rest (unitKey u) = none := getKV_eq_none rest _ hnd1
        simp only [loadUsageGo, parseUnit_unitKey]
        rw [show getKV ((unitKey u, w) :: rest) (unitKey u) = some w by
          rw [getKV, if_pos rfl]]
        by_cases hd : isdigitStr w
        · rw [if_pos hd, ih _ u hnd2, hnone]
          show getKV (updKV acc u (charsToNat w.data)) u
              = if isdigitStr w = true then some (charsToNat w.data) else getKV acc u
          rw [if_pos hd, getKV_updKV_self]
        · rw [if_neg hd, ih _ u hnd2, hnone]
          show getKV acc u = if isdigitStr w = true then some (charsToNat w.data) else getKV acc u
          rw [if_neg hd]
      · rw [show getKV ((k, w) :: rest) (unitKey u) = getKV rest (unitKey u) by
          rw [getKV, if_neg hk]]
        cases hpk : parseUnit k with
        | none =>
            simp only [loadUsageGo, hpk]
            exact ih acc u hnd2
        | some u2 =>
            have hne : u ≠ u2 := by
              intro he
              subst he
              exact hk (parseUnit_eq_some k u hpk)
            simp only [loadUsageGo, hpk]
            by_cases hd : isdigitStr w
            · rw [if_pos hd, ih _ u hnd2]
              cases hrv : getKV rest (unitKey u) with
              | none =>
                  show getKV (updKV acc u2 (charsToNat w.data)) u = getKV acc u
                  exact getKV_updKV_ne _ _ _ _ hne
              | some v2 =>
                  show (if isdigitStr v2 = true then some (charsToNat v2.data)
                        else getKV (updKV acc u2 (charsToNat w.data)) u)
                      = if isdigitStr v2 = true then some (charsToNat v2.data) else getKV acc u
                  rw [getKV_updKV_ne _ _ _ _ hne]
            · rw [if_neg hd, ih _ u hnd2]

/-- C8 (confirmed): flushing a limiter with `write_usage` and constructing a
new limiter from the written configuration reproduces every tracked unit's
count exactly and the same `lastOperationTime` at the serialized (second)
precision; stale unparseable keys left in the persisted `USAGE` section are
skipped on reload just as they were skipped when the limiter was first
loaded. -/
theorem persist_reload_roundtrip
    (st : LimiterState) (lsec usec : CfgSection) (u : TimeUnit) (now2 : DateTime)
    (hlim : getKV st.config "LIMITS" = some lsec)
    (husec : getKV st.config "USAGE" = some usec)
    (hnds : (keyList usec).Nodup)
    (hndu : (keyList st.usage).Nodup)
    (hvalid : st.latest.Valid)
    (hstale : ∀ kv ∈ usec, ∀ u2 : TimeUnit, parseUnit kv.1 = some u2 →
      isdigitStr kv.2 = true → u2 ∈ keyList st.usage) :
    (initRL (some (writeUsage st)) now2).toOption.map
        (fun s2 => (getKV s2.usage u, s2.latest)) =
      some (getKV st.usage u, st.latest) := by
  have hsec0 : (getKV st.config "USAGE").getD [] = usec := by rw [husec]; rfl
  have hw : writeUsage st = updKV st.config "USAGE"
      (st.usage.foldl (fun s p => updKV s (unitKey p.1) (natToString p.2))
        (updKV usec "latest_time" (timeStr st.latest))) := by
    rw [writeUsage, hsec0]
  have hLIM : getKV (writeUsage st) "LIMITS" = some lsec := by
    rw [getKV_writeUsage_LIMITS, hlim]
  have hUSE : getKV (writeUsage st) "USAGE"
      = some (st.usage.foldl (fun s p => updKV s (unitKey p.1) (natToString p.2))
          (updKV usec "latest_time" (timeStr st.latest))) := by
    rw [hw]
    exact getKV_updKV_self _ _ _
  have hLT : getKV (st.usage.foldl (fun s p => updKV s (unitKey p.1) (natToString p.2))
        (updKV usec "latest_time" (timeStr st.latest))) "latest_time"
      = some (timeStr st.latest) := by
    rw [getKV_fold_units_ne st.usage _ "latest_time" (fun p _ => unitKey_ne_latest p.1)]
    exact getKV_updKV_self _ _ _
  have hiso : fromisoformat (timeStr st.latest) = some st.latest :=
    fromisoformat_timeStr st.latest hvalid
  have hinit : initRL (some (writeUsage st)) now2
      = .ok { config := writeUsage st,
              usage := loadUsage
                (st.usage.foldl (fun s p => updKV s (unitKey p.1) (natToString p.2))
                  (updKV usec "latest_time" (timeStr st.latest))),
              latest := st.latest } := by
    simp only [initRL, hLIM, Option.isNone_some, Bool.false_eq_true, if_false, hUSE, hLT, hiso]
  have hnd2 : (keyList (st.usage.foldl (fun s p => updKV s (unitKey p.1) (natToString p.2))
      (updKV usec "latest_time" (timeStr st.latest)))).Nodup :=
    nodup_fold_units st.usage _ (nodup_keyList_updKV usec _ _ hnds)
  have hload : getKV (loadUsage
      (st.usage.foldl (fun s p => updKV s (unitKey p.1) (natToString p.2))
        (updKV usec "latest_time" (timeStr st.latest)))) u = getKV st.usage u := by
    rw [loadUsage, getKV_loadUsageGo _ [] u hnd2]
    cases hc : getKV st.usage u with
    | some c =>
        rw [getKV_fold_units_mem st.usage _ u c hndu (getKV_mem_pair st.usage u c hc)]
        show (if isdigitStr (natToString c) = true then some (charsToNat (natToString c).data)
              else getKV ([] : List (TimeUnit × Nat)) u) = some c
        rw [if_pos (isdigit_natToString c)]
        show some (charsToNat (natToChars c)) = some c
        rw [charsToNat_natToChars]
    | none =>
        have hnt : ∀ p ∈ st.usage, unitKey p.1 ≠ unitKey u := by
          intro p hp he
          have hpu : p.1 = u := unitKey_inj _ _ he
          have : u ∈ keyList st.usage := by
            rw [← hpu]
            exact List.mem_map.mpr ⟨p, hp, rfl⟩
          rw [mem_keyList_iff_getKV, hc] at this
          cases this
        rw [getKV_fold_units_ne st.usage _ (unitKey u) hnt,
          getKV_updKV_ne _ _ _ _ (unitKey_ne_latest u)]
        cases hv2 : getKV usec (unitKey u) with
        | none => rfl
        | some v2 =>
            show (if isdigitStr v2 = true then some (charsToNat v2.data)
                  else getKV ([] : List (TimeUnit × Nat)) u) = none
            by_cases hd : isdigitStr v2
            · exfalso
              have hmem := getKV_mem_pair usec _ _ hv2
              have hin := hstale (unitKey u, v2) hmem u (parseUnit_unitKey u) hd
              rw [mem_keyList_iff_getKV, hc] at hin
              cases hin
            · rw [if_neg hd]
              rfl
  rw [hinit]
  show some (getKV (loadUsage
      (st.usage.foldl (fun s p => updKV s (unitKey p.1) (natToString p.2))
        (updKV usec "latest_time" (timeStr st.latest)))) u, st.latest)
    = some (getKV st.usage u, st.latest)
  rw [hload]

/-- C8 witness: a limiter tracking DAY with count 3 and
`lastOperationTime` 2020-01-02 03:04:05, flushed and reloaded, reproduces
the DAY count and the timestamp exactly. -/
theorem persist_reload_roundtrip_witness :
    (initRL (some (writeUsage stC8w)) ⟨2021, 1, 1, 0, 0, 0⟩).toOption.map
        (fun s2 => (getKV s2.usage .DAY, s2.latest)) =
      some (getKV stC8w.usage .DAY, stC8w.latest) :=
  persist_reload_roundtrip stC8w [("day", "5")] [] .DAY ⟨2021, 1, 1, 0, 0, 0⟩
    rfl rfl (by decide) (by decide) (by decide) (by intro kv hkv; cases hkv)
